import Mathlib

set_option maxHeartbeats 1000000

/-!
Shallow embedding of `src/functree_timer/__init__.py`.

Modelling conventions:
* Wall-clock time is abstracted: each dynamic call carries its observed
  duration (a rational, standing in for the Python float) as an input.
* The per-thread state (`_thread_local`) becomes an explicit `Ctx` record
  threaded through the interpreter; the log file becomes the `log` field
  (list of written lines, append order).
* The Python call stack list (append / pop / index `[-1]` at the end) is
  modelled with the most recent frame at the head of a `List`.
* Python's `dict` is an association list in insertion order; `list.sort`
  (Timsort, stable) is modelled by Mathlib's stable `List.insertionSort`,
  which computes the same output for a stable sort by the same key.
* The recursive tree traversals and the wrapper interpreter are given
  explicit recursion fuel, spent one unit per nesting level, so that every
  definition is structurally recursive and evaluates on concrete input;
  fuel `0` is the junk value of a run that would not terminate in Python.
  The flush pipeline passes `tracking.length + 1`, shown sufficient for
  wrapper-produced tracking lists; the interpreter starts from
  `sizeOf call`, which dominates the nesting depth.
* A raising callable is modelled by a `raises` flag on the dynamic call;
  an uncaught child exception propagates to the caller, as in Python.
* All decorators are taken to share one configuration (`minimum_duration`,
  `top_k`) and one sink, which is the situation all the claims speak about.
-/

/-- Kind tag of an instrumented callable; the source writes the literal
strings "sync" and "async" into each record. -/
inductive FKind where
  | sync
  | async
deriving DecidableEq

/-- The string the source interpolates for the kind tag. -/
def FKind.str : FKind → String
  | .sync => "sync"
  | .async => "async"

/-- One completed-call record, mirroring the 6-tuple
`(func_name, duration, func_type, depth, parent_id, call_id)` appended to
the tracking list. -/
structure Record where
  name : String
  duration : ℚ
  kind : FKind
  depth : Nat
  parent_id : Option Nat
  call_id : Nat
deriving DecidableEq

/-- The `tree` dict of `_build_call_tree`: call-id keyed adjacency lists,
kept as an association list in insertion order. -/
abbrev CTree := List (Nat × List Record)

/-- Dict lookup `tree[p]` / membership `p in tree`. -/
def treeLookup : CTree → Nat → Option (List Record)
  | [], _ => none
  | (q, l) :: t, p => if q = p then some l else treeLookup t p

/-- `tree.setdefault(p, []).append(r)`: append `r` to the list at key `p`,
creating the key (at the end, dict insertion order) if absent. -/
def treeInsert : CTree → Nat → Record → CTree
  | [], p, r => [(p, [r])]
  | (q, l) :: t, p, r => if q = p then (q, l ++ [r]) :: t else (q, l) :: treeInsert t p r

/-- Dict assignment `tree[p] = v`. -/
def treeUpdate : CTree → Nat → List Record → CTree
  | [], p, v => [(p, v)]
  | (q, l) :: t, p, v => if q = p then (q, v) :: t else (q, l) :: treeUpdate t p v

/-- Sort key of `_build_call_tree` line 47 and `_log_top_functions` line 77:
ascending `call_id` (`key=lambda x: x[5]`). -/
def relId (a b : Record) : Prop := a.call_id ≤ b.call_id

instance : DecidableRel relId := fun a b => Nat.decLe a.call_id b.call_id

instance : IsTotal Record relId := ⟨fun a b => Nat.le_total a.call_id b.call_id⟩

instance : IsTrans Record relId := ⟨fun _ _ _ => Nat.le_trans⟩

/-- Sort order of `all_nodes.sort(key=lambda x: x[1], reverse=True)`:
duration descending, stable. -/
def relDur (a b : Record) : Prop := b.duration ≤ a.duration

instance : DecidableRel relDur := fun a b =>
  inferInstanceAs (Decidable (b.duration ≤ a.duration))

/-- Floor of a rational as an integer (`Int.fdiv` is floor division). -/
def ratFloor (q : ℚ) : Int := Int.fdiv q.num (q.den : Int)

/-- The `%.4f`-style rendering `f"{duration:.4f}"` of a duration: four
digits after the decimal point (half-up rounding at the fifth digit; the
claims only use values that are exact at four digits). -/
def format4 (q : ℚ) : String :=
  let n : Int := ratFloor (q * 10000 + 1 / 2)
  let ip : Int := n / 10000
  let fr : Nat := (n % 10000).toNat
  let s : String := toString fr
  toString ip ++ "." ++ String.mk (List.replicate (4 - s.length) '0') ++ s

/-- `"    " * indent`. -/
def indentStr : Nat → String
  | 0 => ""
  | n + 1 => "    " ++ indentStr n

/-- The partition loop of `_build_call_tree` (lines 37-44), accumulating
roots (in tracking order) and the children dict. -/
def buildAux : List Record → List Record × CTree → List Record × CTree
  | [], acc => acc
  | e :: es, (roots, tree) =>
    match e.parent_id with
    | none => buildAux es (roots ++ [e], tree)
    | some p => buildAux es (roots, treeInsert tree p e)

/-- Lines 46-47: sort every parent's children list by ascending `call_id`. -/
def sortChildren (t : CTree) : CTree :=
  t.map (fun kv => (kv.1, List.insertionSort relId kv.2))

/-- `_build_call_tree`: partition the tracking list into roots and the
children dict, then sort each children list by `call_id`. -/
def buildCallTree (tracking : List Record) : List Record × CTree :=
  let rt := buildAux tracking ([], [])
  (rt.1, sortChildren rt.2)

/-- `root_nodes.sort(key=lambda x: x[5])` (line 77). -/
def sortRootsById (l : List Record) : List Record :=
  List.insertionSort relId l

/-- The sibling loop of `collect_nodes` (lines 83-87): `rec_` is the
collection of one node's children list, one nesting level down. -/
def collectSibs (tree : CTree) (rec_ : List Record → List Record) :
    List Record → List Record
  | [] => []
  | e :: es =>
    e :: ((match treeLookup tree e.call_id with
           | some cs => rec_ cs
           | none => []) ++ collectSibs tree rec_ es)

/-- `collect_nodes` (lines 82-88): pre-order flattening of the tree; the
fuel bounds the nesting depth. -/
def collectNodes (tree : CTree) : Nat → List Record → List Record
  | 0, _ => []
  | f + 1, entries => collectSibs tree (fun cs => collectNodes tree f cs) entries

/-- The single line `node_str` of `_format_tree_node` (lines 55-56). -/
def nodeLine (e : Record) (indent : Nat) (pre : String) : String :=
  indentStr indent ++ pre ++ e.name ++ " (" ++ e.kind.str ++ ") took "
    ++ format4 e.duration ++ " seconds"

/-- The children loop of `_format_tree_node` (lines 60-65): the last child
gets the corner connector, the others the tee connector; `rec_` renders
one child node, one nesting level down. -/
def renderSibs (rec_ : Record → Nat → String → List String) :
    List Record → Nat → List String
  | [], _ => []
  | [c], indent => rec_ c indent "└── "
  | c :: c' :: cs, indent => rec_ c indent "├── " ++ renderSibs rec_ (c' :: cs) indent

/-- `_format_tree_node` (lines 51-67): one line for the node, then the
rendered children, one indent level deeper; the fuel bounds the nesting
depth. -/
def formatTreeNode (tree : CTree) : Nat → Record → Nat → String → List String
  | 0, _, _, _ => []
  | f + 1, e, indent, pre =>
    nodeLine e indent pre
      :: (match treeLookup tree e.call_id with
          | some cs =>
            renderSibs (fun c i px => formatTreeNode tree f c i px) cs (indent + 1)
          | none => [])

/-- The sibling loop of `filter_tree` (lines 96-109), threading the
mutable `tree` dict: a node in the keep set is retained (and its children
entry is rewritten only when its filtered children list is nonempty); a
node outside the keep set is retained only when some filtered child
survives.  `rec_` filters one node's children list, one level down. -/
def filterSibs (keep : List Nat)
    (rec_ : List Record → CTree → List Record × CTree) :
    List Record → CTree → List Record × CTree
  | [], t => ([], t)
  | e :: es, t =>
    if keep.contains e.call_id then
      match treeLookup t e.call_id with
      | some cs =>
        let rc := rec_ cs t
        let t2 := if rc.1 = [] then rc.2 else treeUpdate rc.2 e.call_id rc.1
        let rr := filterSibs keep rec_ es t2
        (e :: rr.1, rr.2)
      | none =>
        let rr := filterSibs keep rec_ es t
        (e :: rr.1, rr.2)
    else
      match treeLookup t e.call_id with
      | some cs =>
        let rc := rec_ cs t
        if rc.1 = [] then filterSibs keep rec_ es rc.2
        else
          let t2 := treeUpdate rc.2 e.call_id rc.1
          let rr := filterSibs keep rec_ es t2
          (e :: rr.1, rr.2)
      | none => filterSibs keep rec_ es t

/-- `filter_tree` (lines 94-109) with the returned root list and the
mutated children dict; the fuel bounds the nesting depth. -/
def filterTree (keep : List Nat) : Nat → List Record → CTree → List Record × CTree
  | 0, _, t => ([], t)
  | f + 1, entries, t =>
    filterSibs keep (fun cs u => filterTree keep f cs u) entries t

/-- Python slice `l[:k]` for an `int` `k`: nonnegative `k` takes a front
segment, negative `k` drops the last `|k|` elements (clamped at empty). -/
def pyTake (k : Int) (l : List α) : List α :=
  if 0 ≤ k then l.take k.toNat else l.take (l.length - (-k).toNat)

/-- The `top_k` argument: the string sentinel "full", `None`, or an `int`
(the source checks `top_k != "full" and top_k is not None`). -/
inductive TopK where
  | full
  | noneK
  | num (k : Int)
deriving DecidableEq

/-- Per-thread mutable state of the source (`_thread_local`) plus the sink:
tracking list, call stack (top at head), call-id counter, written lines. -/
structure Ctx where
  tracking : List Record
  call_stack : List (String × Nat)
  counter : Nat
  log : List String
deriving DecidableEq

/-- Middle of `_log_top_functions` (lines 75-111): build the tree, sort
the roots (line 77), and, for an `int` `top_k`, flatten, sort by duration
descending, slice, and run `filter_tree`; returns the final root list and
children dict that reach the rendering loop. -/
def flushPick (topK : TopK) (tracking : List Record) : List Record × CTree :=
  let fuel := tracking.length + 1
  let rt := buildCallTree tracking
  let tree := rt.2
  let root_nodes := sortRootsById rt.1
  match topK with
  | TopK.num k =>
    let all_nodes := collectNodes tree fuel root_nodes
    let top_nodes := pyTake k (List.insertionSort relDur all_nodes)
    let top_call_ids := top_nodes.map (fun r => r.call_id)
    filterTree top_call_ids fuel root_nodes tree
  | _ => (root_nodes, tree)

/-- The write of `_log_top_functions` (lines 113-122): nothing when the
final root list is empty, otherwise every root's rendered lines followed
by the `------` separator. -/
def flushLines (topK : TopK) (tracking : List Record) : List String :=
  let ft := flushPick topK tracking
  if ft.1 = [] then []
  else
    (ft.1.map (fun root => formatTreeNode ft.2 (tracking.length + 1) root 0 "")).flatten
      ++ ["------"]

/-- `_log_top_functions` (lines 69-125): an empty tracking list returns
immediately (lines 72-73) without clearing; otherwise the flush lines are
appended to the sink and tracking and stack are cleared (lines 124-125). -/
def logTopFunctions (topK : TopK) (st : Ctx) : Ctx :=
  if st.tracking = [] then st
  else
    { st with
      tracking := [],
      call_stack := [],
      log := st.log ++ flushLines topK st.tracking }

/-- Decorator configuration shared by the wrappers (`path` is not part of
the model: there is a single sink). -/
structure Config where
  minimum_duration : ℚ
  top_k : TopK

/-- A dynamic call of an instrumented function: its name, observed
duration, sync/async kind, whether its body raises (after running its
nested calls), and the instrumented calls its body makes, in order. -/
inductive Call where
  | mk (name : String) (duration : ℚ) (kind : FKind) (raises : Bool)
      (kids : List Call)

def Call.name : Call → String
  | .mk n _ _ _ _ => n

def Call.duration : Call → ℚ
  | .mk _ d _ _ _ => d

def Call.kindOf : Call → FKind
  | .mk _ _ k _ _ => k

def Call.raisesOf : Call → Bool
  | .mk _ _ _ r _ => r

def Call.kids : Call → List Call
  | .mk _ _ _ _ ks => ks

mutual

/-- Structural size of a dynamic call tree; it strictly dominates the
nesting depth, so it serves as the interpreter's initial fuel. -/
def csize : Call → Nat
  | .mk _ _ _ _ kids => csizeList kids + 1

def csizeList : List Call → Nat
  | [] => 0
  | c :: cs => csize c + csizeList cs + 1

end

/-- Conjunction of `rec_` over a sibling list. -/
def calmSibs (rec_ : Call → Bool) : List Call → Bool
  | [] => true
  | c :: cs => rec_ c && calmSibs rec_ cs

/-- Fuel-bounded check that a whole dynamic subtree completes without
raising (false once the fuel is exhausted). -/
def calmF : Nat → Call → Bool
  | 0, _ => false
  | f + 1, .mk _ _ _ raises kids => !raises && calmSibs (fun c => calmF f c) kids

/-- A call whose whole dynamic subtree completes without raising
(`csize` dominates the nesting depth, so the fuel never runs out). -/
def calm (c : Call) : Bool := calmF (csize c) c

/-- `call_stack[-1][1] if call_stack else None`. -/
def headId : List (String × Nat) → Option Nat
  | [] => none
  | (_, i) :: _ => some i

/-- Run a sequence of sibling instrumented calls with `rec_` (the wrapper
one nesting level down); a raising call aborts the rest of the sequence
and propagates, as an uncaught Python exception does. -/
def runSibs (rec_ : Ctx → Call → Ctx × Bool) : Ctx → List Call → Ctx × Bool
  | st, [] => (st, false)
  | st, c :: cs =>
    let res := rec_ st c
    if res.2 then (res.1, true) else runSibs rec_ res.1 cs

/-- `sync_wrapper`/`async_wrapper` (lines 165-220): allocate a call id,
read parent and depth from the stack, push, run the body (children, then
possibly raise), pop unconditionally, and on the non-raising path append
a record when the duration meets the threshold and flush when the stack
has emptied.  The returned flag is true when the call raised; the fuel
bounds the nesting depth. -/
def runCallF (cfg : Config) : Nat → Ctx → Call → Ctx × Bool
  | 0, st, _ => (st, true)
  | f + 1, st, Call.mk nm dur kind raises kids =>
    let call_id := st.counter + 1
    let parent_id := headId st.call_stack
    let depth := st.call_stack.length
    let res := runSibs (fun s c => runCallF cfg f s c)
      { st with counter := call_id, call_stack := (nm, call_id) :: st.call_stack } kids
    let st3 : Ctx := { res.1 with call_stack := res.1.call_stack.tail }
    if res.2 || raises then (st3, true)
    else if cfg.minimum_duration ≤ dur then
      let st4 := { st3 with
        tracking := st3.tracking ++ [⟨nm, dur, kind, depth, parent_id, call_id⟩] }
      if st4.call_stack = [] then (logTopFunctions cfg.top_k st4, false)
      else (st4, false)
    else (st3, false)

/-- One instrumented call of the wrapper, with enough fuel for its whole
dynamic subtree. -/
def runCall (cfg : Config) (st : Ctx) (c : Call) : Ctx × Bool :=
  runCallF cfg (csize c) st c

/-- The empty starting context of a fresh thread. -/
def ctx0 : Ctx := ⟨[], [], 0, []⟩


/-! Helper lemmas about the flush. -/

theorem logTop_tracking (k : TopK) (st : Ctx) : (logTopFunctions k st).tracking = [] := by
  unfold logTopFunctions
  split
  · assumption
  · rfl

theorem logTop_counter (k : TopK) (st : Ctx) :
    (logTopFunctions k st).counter = st.counter := by
  unfold logTopFunctions
  split <;> rfl

theorem logTop_stack_of_ne (k : TopK) (st : Ctx) (h : st.tracking ≠ []) :
    (logTopFunctions k st).call_stack = [] := by
  unfold logTopFunctions
  rw [if_neg h]

theorem logTop_stack_nil (k : TopK) (st : Ctx) (h : st.call_stack = []) :
    (logTopFunctions k st).call_stack = [] := by
  unfold logTopFunctions
  split
  · exact h
  · rfl

theorem logTop_log_of_ne (k : TopK) (st : Ctx) (h : st.tracking ≠ []) :
    (logTopFunctions k st).log = st.log ++ flushLines k st.tracking := by
  unfold logTopFunctions
  rw [if_neg h]

/-! Helper lemmas about the interpreter. -/

theorem runCallF_succ (cfg : Config) (f : Nat) (st : Ctx) (nm : String) (dur : ℚ)
    (kind : FKind) (raises : Bool) (kids : List Call) :
    runCallF cfg (f + 1) st (Call.mk nm dur kind raises kids) =
    (let res := runSibs (fun s c => runCallF cfg f s c)
        { st with counter := st.counter + 1,
                  call_stack := (nm, st.counter + 1) :: st.call_stack } kids
     let st3 : Ctx := { res.1 with call_stack := res.1.call_stack.tail }
     if res.2 || raises then (st3, true)
     else if cfg.minimum_duration ≤ dur then
       let st4 := { st3 with tracking := st3.tracking ++
         [⟨nm, dur, kind, st.call_stack.length, headId st.call_stack, st.counter + 1⟩] }
       if st4.call_stack = [] then (logTopFunctions cfg.top_k st4, false)
       else (st4, false)
     else (st3, false)) := rfl

theorem runSibs_stack (rec_ : Ctx → Call → Ctx × Bool)
    (hrec : ∀ s c, ((rec_ s c).1).call_stack = s.call_stack) :
    ∀ (st : Ctx) (cs : List Call), ((runSibs rec_ st cs).1).call_stack = st.call_stack
  | _, [] => rfl
  | st, c :: cs => by
    show ((if (rec_ st c).2 then ((rec_ st c).1, true)
           else runSibs rec_ (rec_ st c).1 cs).1).call_stack = st.call_stack
    by_cases h : (rec_ st c).2
    · rw [if_pos h]
      exact hrec st c
    · rw [if_neg h]
      rw [runSibs_stack rec_ hrec (rec_ st c).1 cs]
      exact hrec st c

theorem runCallF_stack (cfg : Config) :
    ∀ (f : Nat) (st : Ctx) (c : Call), ((runCallF cfg f st c).1).call_stack = st.call_stack
  | 0, _, _ => rfl
  | f + 1, st, Call.mk nm dur kind raises kids => by
    rw [runCallF_succ]
    have htail : ((runSibs (fun s c => runCallF cfg f s c)
        { st with counter := st.counter + 1,
                  call_stack := (nm, st.counter + 1) :: st.call_stack } kids).1).call_stack.tail
        = st.call_stack := by
      rw [runSibs_stack (fun s c => runCallF cfg f s c)
        (fun s c => runCallF_stack cfg f s c)]
      rfl
    dsimp only
    split
    · exact htail
    · split
      · split
        · next h4 => rw [logTop_stack_nil _ _ h4]; exact (htail.symm.trans h4).symm
        · exact htail
      · exact htail

theorem runSibs_ext (rec_ : Ctx → Call → Ctx × Bool)
    (hstack : ∀ s c, ((rec_ s c).1).call_stack = s.call_stack)
    (hrec : ∀ s c, s.call_stack ≠ [] →
      ((rec_ s c).1).log = s.log ∧ s.counter ≤ ((rec_ s c).1).counter ∧
      ∃ new, ((rec_ s c).1).tracking = s.tracking ++ new ∧
        ∀ r ∈ new, s.counter < r.call_id) :
    ∀ (st : Ctx) (cs : List Call), st.call_stack ≠ [] →
      ((runSibs rec_ st cs).1).log = st.log ∧
      st.counter ≤ ((runSibs rec_ st cs).1).counter ∧
      ∃ new, ((runSibs rec_ st cs).1).tracking = st.tracking ++ new ∧
        ∀ r ∈ new, st.counter < r.call_id
  | st, [], _ => ⟨rfl, Nat.le_refl _, [], (List.append_nil _).symm, by simp⟩
  | st, c :: cs, h => by
    obtain ⟨hl, hc, new1, ht, hid⟩ := hrec st c h
    rw [show runSibs rec_ st (c :: cs) = if (rec_ st c).2 then ((rec_ st c).1, true)
        else runSibs rec_ (rec_ st c).1 cs from rfl]
    by_cases hr : (rec_ st c).2
    · rw [if_pos hr]
      exact ⟨hl, hc, new1, ht, hid⟩
    · rw [if_neg hr]
      have h' : ((rec_ st c).1).call_stack ≠ [] := by rw [hstack st c]; exact h
      obtain ⟨hl2, hc2, new2, ht2, hid2⟩ := runSibs_ext rec_ hstack hrec (rec_ st c).1 cs h'
      refine ⟨hl2.trans hl, Nat.le_trans hc hc2, new1 ++ new2, ?_, ?_⟩
      · rw [ht2, ht, List.append_assoc]
      · intro r hrm
        rcases List.mem_append.mp hrm with h1 | h2
        · exact hid r h1
        · exact Nat.lt_of_le_of_lt hc (hid2 r h2)

theorem runCallF_ext (cfg : Config) :
    ∀ (f : Nat) (st : Ctx) (c : Call), st.call_stack ≠ [] →
      ((runCallF cfg f st c).1).log = st.log ∧
      st.counter ≤ ((runCallF cfg f st c).1).counter ∧
      ∃ new, ((runCallF cfg f st c).1).tracking = st.tracking ++ new ∧
        ∀ r ∈ new, st.counter < r.call_id
  | 0, st, _, _ => ⟨rfl, Nat.le_refl _, [], (List.append_nil _).symm, by simp⟩
  | f + 1, st, Call.mk nm dur kind raises kids, h => by
    rw [runCallF_succ]
    have hbase : ({ st with counter := st.counter + 1,
                            call_stack := (nm, st.counter + 1) :: st.call_stack }
        : Ctx).call_stack ≠ [] :=
      List.cons_ne_nil _ _
    obtain ⟨hl, hc, new, ht, hid⟩ := runSibs_ext (fun s c => runCallF cfg f s c)
      (fun s c => runCallF_stack cfg f s c)
      (fun s c hs => runCallF_ext cfg f s c hs)
      { st with counter := st.counter + 1,
                call_stack := (nm, st.counter + 1) :: st.call_stack } kids hbase
    have htail : ((runSibs (fun s c => runCallF cfg f s c)
        { st with counter := st.counter + 1,
                  call_stack := (nm, st.counter + 1) :: st.call_stack } kids).1).call_stack.tail
        = st.call_stack := by
      rw [runSibs_stack (fun s c => runCallF cfg f s c)
        (fun s c => runCallF_stack cfg f s c)]
      rfl
    have hle : st.counter ≤ ((runSibs (fun s c => runCallF cfg f s c)
        { st with counter := st.counter + 1,
                  call_stack := (nm, st.counter + 1) :: st.call_stack } kids).1).counter :=
      Nat.le_trans (Nat.le_succ _) hc
    have hids : ∀ r ∈ new, st.counter < r.call_id :=
      fun r hr => Nat.lt_trans (Nat.lt_succ_self _) (hid r hr)
    dsimp only
    split
    · exact ⟨hl, hle, new, ht, hids⟩
    · split
      · split
        · next h4 => exact absurd (htail.symm.trans h4) h
        · refine ⟨hl, hle, new ++ [⟨nm, dur, kind, st.call_stack.length,
            headId st.call_stack, st.counter + 1⟩], ?_, ?_⟩
          · show _ ++ _ = _
            rw [ht, List.append_assoc]
          · intro r hrm
            rcases List.mem_append.mp hrm with h1 | h2
            · exact hids r h1
            · rw [List.mem_singleton.mp h2]
              exact Nat.lt_succ_self _
      · exact ⟨hl, hle, new, ht, hids⟩

theorem calmSibs_run (rec_ : Ctx → Call → Ctx × Bool) (cf : Call → Bool)
    (hrec : ∀ s c, cf c = true → (rec_ s c).2 = false) :
    ∀ (st : Ctx) (cs : List Call), calmSibs cf cs = true →
      (runSibs rec_ st cs).2 = false
  | _, [], _ => rfl
  | st, c :: cs, h => by
    obtain ⟨h1, h2⟩ := Bool.and_eq_true_iff.mp h
    show (if (rec_ st c).2 then ((rec_ st c).1, true)
          else runSibs rec_ (rec_ st c).1 cs).2 = false
    rw [hrec st c h1, if_neg Bool.false_ne_true]
    exact calmSibs_run rec_ cf hrec (rec_ st c).1 cs h2

theorem calmF_run (cfg : Config) :
    ∀ (f : Nat) (st : Ctx) (c : Call), calmF f c = true →
      (runCallF cfg f st c).2 = false
  | 0, _, _, h => absurd h (by simp [calmF])
  | f + 1, st, Call.mk nm dur kind raises kids, h => by
    obtain ⟨h1, h2⟩ := Bool.and_eq_true_iff.mp h
    have hraises : raises = false := by
      cases raises
      · rfl
      · exact absurd h1 (by simp)
    subst hraises
    have hkids : (runSibs (fun s c => runCallF cfg f s c)
        { st with counter := st.counter + 1,
                  call_stack := (nm, st.counter + 1) :: st.call_stack } kids).2 = false :=
      calmSibs_run _ (calmF f) (fun s c hc => calmF_run cfg f s c hc) _ kids h2
    rw [runCallF_succ]
    simp only [hkids]
    split
    · next hcond => simp at hcond
    · split
      · split <;> rfl
      · rfl

theorem calm_mk (nm : String) (dur : ℚ) (kind : FKind) (raises : Bool) (kids : List Call)
    (h : calm (Call.mk nm dur kind raises kids) = true) :
    raises = false ∧ calmSibs (calmF (csizeList kids)) kids = true := by
  have h' : (!raises && calmSibs (fun c => calmF (csizeList kids) c) kids) = true := h
  obtain ⟨h1, h2⟩ := Bool.and_eq_true_iff.mp h'
  refine ⟨?_, ?_⟩
  · cases raises
    · rfl
    · exact absurd h1 (by simp)
  · exact h2

theorem runCall_record_cons (cfg : Config) (st : Ctx) (c : Call) (nm0 : String) (i0 : Nat)
    (rest : List (String × Nat)) (hst : st.call_stack = (nm0, i0) :: rest)
    (hcalm : calm c = true) (hdur : cfg.minimum_duration ≤ c.duration) :
    (runCall cfg st c).2 = false ∧
    ∃ new, ((runCall cfg st c).1).tracking =
      st.tracking ++ new ++
        [⟨c.name, c.duration, c.kindOf, st.call_stack.length, some i0, st.counter + 1⟩] := by
  obtain ⟨nm, dur, kind, raises, kids⟩ := c
  obtain ⟨hraises, hsibs⟩ := calm_mk nm dur kind raises kids hcalm
  subst hraises
  have hbase : ({ st with counter := st.counter + 1,
                          call_stack := (nm, st.counter + 1) :: st.call_stack }
      : Ctx).call_stack ≠ [] :=
    List.cons_ne_nil _ _
  have hkids : (runSibs (fun s c => runCallF cfg (csizeList kids) s c)
      { st with counter := st.counter + 1,
                call_stack := (nm, st.counter + 1) :: st.call_stack } kids).2 = false :=
    calmSibs_run _ (calmF (csizeList kids))
      (fun s c hc => calmF_run cfg (csizeList kids) s c hc) _ kids hsibs
  obtain ⟨hl, hc, new, ht, hid⟩ := runSibs_ext (fun s c => runCallF cfg (csizeList kids) s c)
    (fun s c => runCallF_stack cfg (csizeList kids) s c)
    (fun s c hs => runCallF_ext cfg (csizeList kids) s c hs)
    { st with counter := st.counter + 1,
              call_stack := (nm, st.counter + 1) :: st.call_stack } kids hbase
  have htail : ((runSibs (fun s c => runCallF cfg (csizeList kids) s c)
      { st with counter := st.counter + 1,
                call_stack := (nm, st.counter + 1) :: st.call_stack } kids).1).call_stack.tail
      = st.call_stack := by
    rw [runSibs_stack (fun s c => runCallF cfg (csizeList kids) s c)
      (fun s c => runCallF_stack cfg (csizeList kids) s c)]
    rfl
  have hdur' : cfg.minimum_duration ≤ dur := hdur
  rw [show runCall cfg st (Call.mk nm dur kind false kids)
      = runCallF cfg (csizeList kids + 1) st (Call.mk nm dur kind false kids) from rfl]
  rw [runCallF_succ]
  simp only [hkids]
  rw [if_neg (by simp)]
  rw [if_pos hdur']
  rw [if_neg (by rw [htail, hst]; exact List.cons_ne_nil _ _)]
  refine ⟨rfl, new, ?_⟩
  show _ ++ _ = _
  rw [ht, hst]
  rfl

theorem runCall_record_nil (cfg : Config) (st : Ctx) (c : Call)
    (hst : st.call_stack = []) (hcalm : calm c = true)
    (hdur : cfg.minimum_duration ≤ c.duration) :
    ∃ pre new, runCall cfg st c = (logTopFunctions cfg.top_k pre, false) ∧
      pre.tracking = st.tracking ++ new ++
        [⟨c.name, c.duration, c.kindOf, 0, none, st.counter + 1⟩] ∧
      pre.call_stack = [] ∧ pre.log = st.log := by
  obtain ⟨nm, dur, kind, raises, kids⟩ := c
  obtain ⟨hraises, hsibs⟩ := calm_mk nm dur kind raises kids hcalm
  subst hraises
  have hbase : ({ st with counter := st.counter + 1,
                          call_stack := (nm, st.counter + 1) :: st.call_stack }
      : Ctx).call_stack ≠ [] :=
    List.cons_ne_nil _ _
  have hkids : (runSibs (fun s c => runCallF cfg (csizeList kids) s c)
      { st with counter := st.counter + 1,
                call_stack := (nm, st.counter + 1) :: st.call_stack } kids).2 = false :=
    calmSibs_run _ (calmF (csizeList kids))
      (fun s c hc => calmF_run cfg (csizeList kids) s c hc) _ kids hsibs
  obtain ⟨hl, hc, new, ht, hid⟩ := runSibs_ext (fun s c => runCallF cfg (csizeList kids) s c)
    (fun s c => runCallF_stack cfg (csizeList kids) s c)
    (fun s c hs => runCallF_ext cfg (csizeList kids) s c hs)
    { st with counter := st.counter + 1,
              call_stack := (nm, st.counter + 1) :: st.call_stack } kids hbase
  have htail : ((runSibs (fun s c => runCallF cfg (csizeList kids) s c)
      { st with counter := st.counter + 1,
                call_stack := (nm, st.counter + 1) :: st.call_stack } kids).1).call_stack.tail
      = st.call_stack := by
    rw [runSibs_stack (fun s c => runCallF cfg (csizeList kids) s c)
      (fun s c => runCallF_stack cfg (csizeList kids) s c)]
    rfl
  have hdur' : cfg.minimum_duration ≤ dur := hdur
  rw [show runCall cfg st (Call.mk nm dur kind false kids)
      = runCallF cfg (csizeList kids + 1) st (Call.mk nm dur kind false kids) from rfl]
  rw [runCallF_succ]
  simp only [hkids]
  rw [if_neg (by simp)]
  rw [if_pos hdur']
  rw [if_pos (by rw [htail, hst])]
  refine ⟨_, new, rfl, ?_, ?_, ?_⟩
  · show _ ++ _ = _
    rw [ht, hst]
    rfl
  · show _ = ([] : List (String × Nat))
    rw [htail, hst]
  · exact hl

theorem runCall_stack_eq (cfg : Config) (st : Ctx) (c : Call) :
    ((runCall cfg st c).1).call_stack = st.call_stack :=
  runCallF_stack cfg (csize c) st c

theorem runCall_raises (cfg : Config) (st : Ctx) (c : Call) (hr : c.raisesOf = true) :
    (runCall cfg st c).2 = true ∧
    ((runCall cfg st c).1).call_stack = st.call_stack ∧
    ((runCall cfg st c).1).log = st.log ∧
    ∃ new, ((runCall cfg st c).1).tracking = st.tracking ++ new ∧
      ∀ r ∈ new, st.counter + 1 < r.call_id := by
  obtain ⟨nm, dur, kind, raises, kids⟩ := c
  have hraises : raises = true := hr
  subst hraises
  have hbase : ({ st with counter := st.counter + 1,
                          call_stack := (nm, st.counter + 1) :: st.call_stack }
      : Ctx).call_stack ≠ [] :=
    List.cons_ne_nil _ _
  obtain ⟨hl, hc, new, ht, hid⟩ := runSibs_ext (fun s c => runCallF cfg (csizeList kids) s c)
    (fun s c => runCallF_stack cfg (csizeList kids) s c)
    (fun s c hs => runCallF_ext cfg (csizeList kids) s c hs)
    { st with counter := st.counter + 1,
              call_stack := (nm, st.counter + 1) :: st.call_stack } kids hbase
  have htail : ((runSibs (fun s c => runCallF cfg (csizeList kids) s c)
      { st with counter := st.counter + 1,
                call_stack := (nm, st.counter + 1) :: st.call_stack } kids).1).call_stack.tail
      = st.call_stack := by
    rw [runSibs_stack (fun s c => runCallF cfg (csizeList kids) s c)
      (fun s c => runCallF_stack cfg (csizeList kids) s c)]
    rfl
  rw [show runCall cfg st (Call.mk nm dur kind true kids)
      = runCallF cfg (csizeList kids + 1) st (Call.mk nm dur kind true kids) from rfl]
  rw [runCallF_succ]
  rw [if_pos (by simp)]
  exact ⟨rfl, htail, hl, new, ht, hid⟩

/-! Helper lemmas about the tree builder. -/

/-- A record sits in the children dict under key `p`. -/
def memTree (t : CTree) (p : Nat) (r : Record) : Prop :=
  ∃ cs, treeLookup t p = some cs ∧ r ∈ cs

theorem treeLookup_insert (q : Nat) (e : Record) (p : Nat) :
    ∀ t : CTree, treeLookup (treeInsert t q e) p =
      if q = p then some ((treeLookup t p).getD [] ++ [e]) else treeLookup t p
  | [] => by
    by_cases h : q = p <;> simp [treeInsert, treeLookup, h]
  | (k, l) :: t => by
    by_cases hkq : k = q
    · subst hkq
      by_cases hkp : k = p <;>
        simp [treeInsert, treeLookup, hkp]
    · have hrec := treeLookup_insert q e p t
      by_cases hkp : k = p
      · have hqp : ¬ q = p := fun h' => hkq (hkp.trans h'.symm)
        have hpq : ¬ p = q := fun h' => hqp h'.symm
        simp [treeInsert, treeLookup, hkq, hkp, hqp, hpq]
      · simp [treeInsert, treeLookup, hkq, hkp, hrec]

theorem memTree_insert (t : CTree) (q : Nat) (e : Record) (p : Nat) (r : Record) :
    memTree (treeInsert t q e) p r ↔ memTree t p r ∨ (p = q ∧ r = e) := by
  unfold memTree
  rw [treeLookup_insert]
  by_cases h : q = p
  · subst h
    rcases hmem : treeLookup t q with _ | l <;> simp [hmem]
  · have h' : ¬ p = q := fun h'' => h h''.symm
    simp [h, h']

theorem buildAux_fst : ∀ (tr : List Record) (roots : List Record) (t : CTree),
    (buildAux tr (roots, t)).1 = roots ++ tr.filter (fun r => r.parent_id.isNone)
  | [], roots, t => by simp [buildAux]
  | e :: es, roots, t => by
    unfold buildAux
    rcases hpe : e.parent_id with _ | p
    · rw [buildAux_fst es (roots ++ [e]) t]
      simp [List.filter, hpe, Option.isNone]
    · rw [buildAux_fst es roots (treeInsert t p e)]
      simp [List.filter, hpe, Option.isNone]

theorem buildAux_mem : ∀ (tr : List Record) (roots : List Record) (t : CTree)
    (p : Nat) (r : Record),
    memTree (buildAux tr (roots, t)).2 p r ↔
      memTree t p r ∨ (r ∈ tr ∧ r.parent_id = some p)
  | [], roots, t, p, r => by simp [buildAux]
  | e :: es, roots, t, p, r => by
    unfold buildAux
    rcases hpe : e.parent_id with _ | q
    · rw [buildAux_mem es (roots ++ [e]) t p r]
      constructor
      · rintro (h | ⟨hm, hp⟩)
        · exact Or.inl h
        · exact Or.inr ⟨List.mem_cons_of_mem _ hm, hp⟩
      · rintro (h | ⟨hm, hp⟩)
        · exact Or.inl h
        · rcases List.mem_cons.mp hm with he | hm'
          · subst he
            rw [hpe] at hp
            cases hp
          · exact Or.inr ⟨hm', hp⟩
    · rw [buildAux_mem es roots (treeInsert t q e) p r, memTree_insert]
      constructor
      · rintro ((h | ⟨hpq, hre⟩) | ⟨hm, hp⟩)
        · exact Or.inl h
        · subst hpq
          subst hre
          exact Or.inr ⟨List.mem_cons_self _ _, hpe⟩
        · exact Or.inr ⟨List.mem_cons_of_mem _ hm, hp⟩
      · rintro (h | ⟨hm, hp⟩)
        · exact Or.inl (Or.inl h)
        · rcases List.mem_cons.mp hm with he | hm'
          · subst he
            rw [hpe] at hp
            exact Or.inl (Or.inr ⟨(Option.some.inj hp).symm, rfl⟩)
          · exact Or.inr ⟨hm', hp⟩

theorem treeLookup_sortChildren (p : Nat) : ∀ (t : CTree),
    treeLookup (sortChildren t) p = (treeLookup t p).map (List.insertionSort relId)
  | [] => rfl
  | (k, l) :: t => by
    show treeLookup ((k, List.insertionSort relId l) :: sortChildren t) p = _
    by_cases h : k = p
    · simp [treeLookup, h]
    · simp [treeLookup, h, treeLookup_sortChildren p t]

theorem memTree_sortChildren (t : CTree) (p : Nat) (r : Record) :
    memTree (sortChildren t) p r ↔ memTree t p r := by
  unfold memTree
  rw [treeLookup_sortChildren]
  rcases hmem : treeLookup t p with _ | l <;> simp [hmem]

theorem buildCallTree_roots (tr : List Record) :
    (buildCallTree tr).1 = tr.filter (fun r => r.parent_id.isNone) := by
  unfold buildCallTree
  rw [buildAux_fst tr [] []]
  rfl

theorem buildCallTree_mem (tr : List Record) (p : Nat) (r : Record) :
    memTree (buildCallTree tr).2 p r ↔ r ∈ tr ∧ r.parent_id = some p := by
  unfold buildCallTree
  show memTree (sortChildren (buildAux tr ([], [])).2) p r ↔ _
  rw [memTree_sortChildren, buildAux_mem]
  simp [memTree, treeLookup]

/-! Invariants for the id-ordering and termination claim. -/

/-- A record's `parent_id`, when present, is strictly below its `call_id`. -/
def parentLtB (r : Record) : Bool :=
  match r.parent_id with
  | none => true
  | some p => decide (p < r.call_id)

/-- Well-formedness of a context: every stacked frame's id and every
tracked record's id is within the counter, and every tracked record has
`parent_id < call_id`. -/
def ctxOk (st : Ctx) : Bool :=
  st.call_stack.all (fun fr => decide (fr.2 ≤ st.counter)) &&
  st.tracking.all (fun r => parentLtB r && decide (r.call_id ≤ st.counter))

theorem parentLtB_iff (r : Record) :
    parentLtB r = true ↔ ∀ p, r.parent_id = some p → p < r.call_id := by
  rcases h : r.parent_id with _ | p <;> simp [parentLtB, h]

theorem ctxOk_iff (st : Ctx) :
    ctxOk st = true ↔
      (∀ fr ∈ st.call_stack, fr.2 ≤ st.counter) ∧
      ∀ r ∈ st.tracking,
        (∀ p, r.parent_id = some p → p < r.call_id) ∧ r.call_id ≤ st.counter := by
  simp [ctxOk, List.all_eq_true, parentLtB_iff, and_assoc]

theorem runSibs_counter (rec_ : Ctx → Call → Ctx × Bool)
    (hmono : ∀ s c, s.counter ≤ ((rec_ s c).1).counter) :
    ∀ (st : Ctx) (cs : List Call), st.counter ≤ ((runSibs rec_ st cs).1).counter
  | _, [] => Nat.le_refl _
  | st, c :: cs => by
    rw [show runSibs rec_ st (c :: cs) = if (rec_ st c).2 then ((rec_ st c).1, true)
        else runSibs rec_ (rec_ st c).1 cs from rfl]
    by_cases hr : (rec_ st c).2
    · rw [if_pos hr]
      exact hmono st c
    · rw [if_neg hr]
      exact Nat.le_trans (hmono st c) (runSibs_counter rec_ hmono (rec_ st c).1 cs)

theorem runCallF_counter (cfg : Config) :
    ∀ (f : Nat) (st : Ctx) (c : Call), st.counter ≤ ((runCallF cfg f st c).1).counter
  | 0, _, _ => Nat.le_refl _
  | f + 1, st, Call.mk nm dur kind raises kids => by
    rw [runCallF_succ]
    have hrun : st.counter + 1 ≤ ((runSibs (fun s c => runCallF cfg f s c)
        { st with counter := st.counter + 1,
                  call_stack := (nm, st.counter + 1) :: st.call_stack } kids).1).counter :=
      runSibs_counter (fun s c => runCallF cfg f s c)
        (fun s c => runCallF_counter cfg f s c)
        { st with counter := st.counter + 1,
                  call_stack := (nm, st.counter + 1) :: st.call_stack } kids
    have hle : st.counter ≤ ((runSibs (fun s c => runCallF cfg f s c)
        { st with counter := st.counter + 1,
                  call_stack := (nm, st.counter + 1) :: st.call_stack } kids).1).counter :=
      Nat.le_trans (Nat.le_succ _) hrun
    dsimp only
    split
    · exact hle
    · split
      · split
        · rw [logTop_counter]
          exact hle
        · exact hle
      · exact hle

theorem logTop_ctxOk (k : TopK) (st : Ctx) (h : st.call_stack = []) :
    ctxOk (logTopFunctions k st) = true := by
  rw [ctxOk_iff, logTop_tracking, logTop_stack_nil k st h]
  simp

theorem tail_all {α : Type} (p : α → Prop) (l : List α) (h : ∀ x ∈ l, p x) :
    ∀ x ∈ l.tail, p x := by
  cases l with
  | nil => simp
  | cons a l => exact fun x hx => h x (List.mem_cons_of_mem a hx)

theorem runSibs_ctxOk (rec_ : Ctx → Call → Ctx × Bool)
    (hrec : ∀ s c, ctxOk s = true → ctxOk ((rec_ s c).1) = true) :
    ∀ (st : Ctx) (cs : List Call), ctxOk st = true →
      ctxOk ((runSibs rec_ st cs).1) = true
  | _, [], h => h
  | st, c :: cs, h => by
    rw [show runSibs rec_ st (c :: cs) = if (rec_ st c).2 then ((rec_ st c).1, true)
        else runSibs rec_ (rec_ st c).1 cs from rfl]
    by_cases hr : (rec_ st c).2
    · rw [if_pos hr]
      exact hrec st c h
    · rw [if_neg hr]
      exact runSibs_ctxOk rec_ hrec (rec_ st c).1 cs (hrec st c h)

theorem runCallF_ctxOk (cfg : Config) :
    ∀ (f : Nat) (st : Ctx) (c : Call), ctxOk st = true →
      ctxOk ((runCallF cfg f st c).1) = true
  | 0, _, _, h => h
  | f + 1, st, Call.mk nm dur kind raises kids, h => by
    obtain ⟨hstk, htrk⟩ := (ctxOk_iff st).mp h
    have hbase : ctxOk ({ st with counter := st.counter + 1,
                                  call_stack := (nm, st.counter + 1) :: st.call_stack }
        : Ctx) = true := by
      rw [ctxOk_iff]
      refine ⟨?_, ?_⟩
      · intro fr hfr
        rcases List.mem_cons.mp hfr with hfr | hfr
        · subst hfr
          exact Nat.le_refl _
        · exact Nat.le_trans (hstk fr hfr) (Nat.le_succ _)
      · intro r hr
        obtain ⟨h1, h2⟩ := htrk r hr
        exact ⟨h1, Nat.le_trans h2 (Nat.le_succ _)⟩
    have hrun : ctxOk ((runSibs (fun s c => runCallF cfg f s c)
        { st with counter := st.counter + 1,
                  call_stack := (nm, st.counter + 1) :: st.call_stack } kids).1) = true :=
      runSibs_ctxOk _ (fun s c hs => runCallF_ctxOk cfg f s c hs) _ kids hbase
    obtain ⟨hstk2, htrk2⟩ := (ctxOk_iff _).mp hrun
    have hcnt : st.counter + 1 ≤ ((runSibs (fun s c => runCallF cfg f s c)
        { st with counter := st.counter + 1,
                  call_stack := (nm, st.counter + 1) :: st.call_stack } kids).1).counter :=
      runSibs_counter (fun s c => runCallF cfg f s c)
        (fun s c => runCallF_counter cfg f s c)
        { st with counter := st.counter + 1,
                  call_stack := (nm, st.counter + 1) :: st.call_stack } kids
    have hst3 : ctxOk { (runSibs (fun s c => runCallF cfg f s c)
        { st with counter := st.counter + 1,
                  call_stack := (nm, st.counter + 1) :: st.call_stack } kids).1 with
        call_stack := ((runSibs (fun s c => runCallF cfg f s c)
          { st with counter := st.counter + 1,
                    call_stack := (nm, st.counter + 1) :: st.call_stack } kids).1).call_stack.tail }
        = true := by
      rw [ctxOk_iff]
      exact ⟨tail_all _ _ hstk2, htrk2⟩
    rw [runCallF_succ]
    dsimp only
    split
    · exact hst3
    · split
      · split
        · next h4 => exact logTop_ctxOk _ _ h4
        · rw [ctxOk_iff]
          obtain ⟨hs3, ht3⟩ := (ctxOk_iff _).mp hst3
          refine ⟨hs3, ?_⟩
          intro r hr
          rcases List.mem_append.mp hr with hr | hr
          · exact ht3 r hr
          · rw [List.mem_singleton.mp hr]
            refine ⟨?_, hcnt⟩
            intro p hp
            rcases hs : st.call_stack with _ | ⟨⟨n0, i0⟩, rest⟩
            · rw [hs] at hp
              cases hp
            · rw [hs] at hp
              have : i0 = p := Option.some.inj hp
              subst this
              have hi0 : i0 ≤ st.counter := hstk (n0, i0) (hs ▸ List.mem_cons_self _ _)
              exact Nat.lt_succ_of_le hi0
      · exact hst3

/-- Decidable form of the tree invariant for the traversal claims: every
child list entry is a tracked record whose id exceeds its parent key. -/
def treeOk (tracking : List Record) (t : CTree) : Bool :=
  t.all (fun kv => kv.2.all (fun c => decide (c ∈ tracking) && decide (kv.1 < c.call_id)))

theorem treeLookup_cons (k : Nat) (l : List Record) (t : CTree) (p : Nat) :
    treeLookup ((k, l) :: t) p = if k = p then some l else treeLookup t p := rfl

theorem treeOk_spec (tracking : List Record) :
    ∀ (t : CTree), treeOk tracking t = true →
      ∀ p cs, treeLookup t p = some cs → ∀ c ∈ cs, c ∈ tracking ∧ p < c.call_id
  | [], _, p, cs, hcs => by cases hcs
  | (k, l) :: t, h, p, cs, hcs => by
    rw [treeOk, List.all_cons, Bool.and_eq_true_iff] at h
    obtain ⟨hkl, ht⟩ := h
    rw [treeLookup_cons] at hcs
    by_cases hkp : k = p
    · rw [if_pos hkp] at hcs
      cases Option.some.inj hcs
      intro c hc
      have := (List.all_eq_true.mp hkl) c hc
      rw [Bool.and_eq_true_iff, decide_eq_true_iff, decide_eq_true_iff] at this
      exact ⟨this.1, hkp ▸ this.2⟩
    · rw [if_neg hkp] at hcs
      exact treeOk_spec tracking t ht p cs hcs

/-- The per-node termination measure: the number of tracked records with a
strictly larger call id. -/
def restAbove (tracking : List Record) (e : Record) : Nat :=
  tracking.countP (fun r => decide (e.call_id < r.call_id))

theorem restAbove_lt (tracking : List Record) (c e : Record)
    (hc : c ∈ tracking) (hlt : e.call_id < c.call_id) :
    restAbove tracking c < restAbove tracking e := by
  unfold restAbove
  induction tracking with
  | nil => cases hc
  | cons x xs ih =>
    rcases List.mem_cons.mp hc with hx | hx
    · subst hx
      rw [List.countP_cons_of_neg (fun r => decide (c.call_id < r.call_id)) xs (by simp),
        List.countP_cons_of_pos (fun r => decide (e.call_id < r.call_id)) xs
          (decide_eq_true hlt)]
      have hmono : xs.countP (fun r => decide (c.call_id < r.call_id)) ≤
          xs.countP (fun r => decide (e.call_id < r.call_id)) :=
        List.countP_mono_left (fun r _ hp => by
          rw [decide_eq_true_iff] at hp
          exact decide_eq_true (Nat.lt_trans hlt hp))
      exact Nat.lt_succ_of_le hmono
    · have hih := ih hx
      by_cases hx1 : c.call_id < x.call_id
      · have hx2 : e.call_id < x.call_id := Nat.lt_trans hlt hx1
        rw [List.countP_cons_of_pos (fun r => decide (c.call_id < r.call_id)) xs
            (decide_eq_true hx1),
          List.countP_cons_of_pos (fun r => decide (e.call_id < r.call_id)) xs
            (decide_eq_true hx2)]
        exact Nat.succ_lt_succ hih
      · rw [List.countP_cons_of_neg (fun r => decide (c.call_id < r.call_id)) xs
            (by simpa using hx1)]
        by_cases hx2 : e.call_id < x.call_id
        · rw [List.countP_cons_of_pos (fun r => decide (e.call_id < r.call_id)) xs
              (decide_eq_true hx2)]
          exact Nat.lt_trans hih (Nat.lt_succ_self _)
        · rw [List.countP_cons_of_neg (fun r => decide (e.call_id < r.call_id)) xs
              (by simpa using hx2)]
          exact hih

theorem renderSibs_congr (rec1 rec2 : Record → Nat → String → List String)
    (cs : List Record) (h : ∀ c ∈ cs, ∀ i px, rec1 c i px = rec2 c i px) :
    ∀ ind, renderSibs rec1 cs ind = renderSibs rec2 cs ind := by
  induction cs with
  | nil => intro ind; rfl
  | cons c cs ih =>
    intro ind
    cases cs with
    | nil =>
      show rec1 c ind _ = rec2 c ind _
      exact h c (List.mem_cons_self _ _) ind _
    | cons c' cs' =>
      show rec1 c ind _ ++ renderSibs rec1 (c' :: cs') ind
          = rec2 c ind _ ++ renderSibs rec2 (c' :: cs') ind
      rw [h c (List.mem_cons_self _ _) ind _,
        ih (fun x hx => h x (List.mem_cons_of_mem _ hx)) ind]

theorem formatTreeNode_stable (tracking : List Record) (t : CTree)
    (htree : ∀ p cs, treeLookup t p = some cs → ∀ c ∈ cs, c ∈ tracking ∧ p < c.call_id) :
    ∀ (f : Nat) (e : Record) (ind : Nat) (pre : String),
      restAbove tracking e < f →
      formatTreeNode t f e ind pre = formatTreeNode t (f + 1) e ind pre := by
  intro f
  induction f with
  | zero => intro e ind pre h; cases h
  | succ f ih =>
    intro e ind pre hb
    show nodeLine e ind pre :: _ = nodeLine e ind pre :: _
    congr 1
    rcases hlu : treeLookup t e.call_id with _ | cs
    · rfl
    · show renderSibs (fun c i px => formatTreeNode t f c i px) cs (ind + 1)
          = renderSibs (fun c i px => formatTreeNode t (f + 1) c i px) cs (ind + 1)
      refine renderSibs_congr _ _ cs ?_ (ind + 1)
      intro c hc i px
      obtain ⟨hmem, hlt⟩ := htree e.call_id cs hlu c hc
      exact ih c i px (Nat.lt_of_lt_of_le (restAbove_lt tracking c e hmem hlt)
        (Nat.lt_succ_iff.mp hb))

theorem collectNodes_stable (tracking : List Record) (t : CTree)
    (htree : ∀ p cs, treeLookup t p = some cs → ∀ c ∈ cs, c ∈ tracking ∧ p < c.call_id) :
    ∀ (f : Nat) (entries : List Record),
      (∀ e ∈ entries, restAbove tracking e < f) →
      collectNodes t f entries = collectNodes t (f + 1) entries := by
  intro f
  induction f with
  | zero =>
    intro entries hb
    cases entries with
    | nil => rfl
    | cons e es => exact absurd (hb e (List.mem_cons_self _ _)) (Nat.not_lt_zero _)
  | succ f ih =>
    intro entries hb
    show collectSibs t (fun cs => collectNodes t f cs) entries
        = collectSibs t (fun cs => collectNodes t (f + 1) cs) entries
    induction entries with
    | nil => rfl
    | cons e es ihes =>
      show e :: (_ ++ collectSibs t (fun cs => collectNodes t f cs) es)
          = e :: (_ ++ collectSibs t (fun cs => collectNodes t (f + 1) cs) es)
      have htl := ihes (fun x hx => hb x (List.mem_cons_of_mem _ hx))
      congr 1
      rcases hlu : treeLookup t e.call_id with _ | cs
      · simpa [hlu] using htl
      · have hkids : collectNodes t f cs = collectNodes t (f + 1) cs := by
          refine ih cs ?_
          intro c hc
          obtain ⟨hmem, hlt⟩ := htree e.call_id cs hlu c hc
          exact Nat.lt_of_lt_of_le (restAbove_lt tracking c e hmem hlt)
            (Nat.lt_succ_iff.mp (hb e (List.mem_cons_self _ _)))
        simp only [hlu]
        rw [hkids, htl]

theorem treeLookup_update (p : Nat) (v : List Record) (q : Nat) :
    ∀ (t : CTree), treeLookup (treeUpdate t p v) q =
      if p = q then some v else treeLookup t q
  | [] => by
    by_cases h : p = q <;> simp [treeUpdate, treeLookup, h]
  | (k, l) :: t => by
    by_cases hkp : k = p
    · subst hkp
      by_cases hkq : k = q <;> simp [treeUpdate, treeLookup, hkq]
    · have hrec := treeLookup_update p v q t
      by_cases hkq : k = q
      · have hpq : ¬ p = q := fun h' => hkp (hkq.trans h'.symm)
        have hqp : ¬ q = p := fun h' => hpq h'.symm
        simp [treeUpdate, treeLookup, hkp, hkq, hpq, hqp]
      · simp [treeUpdate, treeLookup, hkp, hkq, hrec]

/-- Propositional form of the tree invariant. -/
def treeInv (tracking : List Record) (t : CTree) : Prop :=
  ∀ p cs, treeLookup t p = some cs → ∀ c ∈ cs, c ∈ tracking ∧ p < c.call_id

theorem filterSibs_cons (keep : List Nat)
    (rec_ : List Record → CTree → List Record × CTree) (e : Record)
    (es : List Record) (t : CTree) :
    filterSibs keep rec_ (e :: es) t =
      if keep.contains e.call_id then
        match treeLookup t e.call_id with
        | some cs =>
          let rc := rec_ cs t
          let t2 := if rc.1 = [] then rc.2 else treeUpdate rc.2 e.call_id rc.1
          let rr := filterSibs keep rec_ es t2
          (e :: rr.1, rr.2)
        | none =>
          let rr := filterSibs keep rec_ es t
          (e :: rr.1, rr.2)
      else
        match treeLookup t e.call_id with
        | some cs =>
          let rc := rec_ cs t
          if rc.1 = [] then filterSibs keep rec_ es rc.2
          else
            let t2 := treeUpdate rc.2 e.call_id rc.1
            let rr := filterSibs keep rec_ es t2
            (e :: rr.1, rr.2)
        | none => filterSibs keep rec_ es t := rfl

theorem filterSibs_spec (tracking : List Record) (keep : List Nat) (bnd : Nat)
    (recf recg : List Record → CTree → List Record × CTree)
    (hrec : ∀ cs t, treeInv tracking t → (∀ c ∈ cs, restAbove tracking c < bnd) →
      recf cs t = recg cs t ∧ treeInv tracking ((recg cs t).2) ∧
      ∀ r ∈ (recg cs t).1, r ∈ cs) :
    ∀ (entries : List Record) (t : CTree), treeInv tracking t →
      (∀ e ∈ entries, restAbove tracking e < bnd + 1) →
      filterSibs keep recf entries t = filterSibs keep recg entries t ∧
      treeInv tracking ((filterSibs keep recg entries t).2) ∧
      ∀ r ∈ (filterSibs keep recg entries t).1, r ∈ entries
  | [], t, hinv, _ => ⟨rfl, hinv, by intro r hr; cases hr⟩
  | e :: es, t, hinv, hb => by
    have hbe := hb e (List.mem_cons_self _ _)
    have hbes : ∀ x ∈ es, restAbove tracking x < bnd + 1 :=
      fun x hx => hb x (List.mem_cons_of_mem _ hx)
    by_cases hk : keep.contains e.call_id = true
    · rcases hlu : treeLookup t e.call_id with _ | cs
      · obtain ⟨heq2, hinv3, hsub2⟩ :=
          filterSibs_spec tracking keep bnd recf recg hrec es t hinv hbes
        have hgeq : filterSibs keep recg (e :: es) t
            = (e :: (filterSibs keep recg es t).1, (filterSibs keep recg es t).2) := by
          rw [filterSibs_cons, if_pos hk, hlu]
        have hfeq : filterSibs keep recf (e :: es) t
            = (e :: (filterSibs keep recf es t).1, (filterSibs keep recf es t).2) := by
          rw [filterSibs_cons, if_pos hk, hlu]
        refine ⟨?_, ?_, ?_⟩
        · rw [hfeq, hgeq, heq2]
        · rw [hgeq]
          exact hinv3
        · rw [hgeq]
          intro r hr
          rcases List.mem_cons.mp hr with hr | hr
          · exact hr ▸ List.mem_cons_self _ _
          · exact List.mem_cons_of_mem _ (hsub2 r hr)
      · have hcs : ∀ c ∈ cs, restAbove tracking c < bnd := by
          intro c hc
          obtain ⟨hmem, hlt⟩ := hinv e.call_id cs hlu c hc
          exact Nat.lt_of_lt_of_le (restAbove_lt tracking c e hmem hlt)
            (Nat.lt_succ_iff.mp hbe)
        obtain ⟨heqc, hinvc, hsubc⟩ := hrec cs t hinv hcs
        have hinv2 : treeInv tracking (if (recg cs t).1 = [] then (recg cs t).2
            else treeUpdate (recg cs t).2 e.call_id (recg cs t).1) := by
          by_cases hemp : (recg cs t).1 = []
          · rw [if_pos hemp]
            exact hinvc
          · rw [if_neg hemp]
            intro p cs' hcs' c hc
            rw [treeLookup_update] at hcs'
            by_cases hpe : e.call_id = p
            · rw [if_pos hpe] at hcs'
              cases Option.some.inj hcs'
              obtain ⟨hmem, hlt⟩ := hinv e.call_id cs hlu c (hsubc c hc)
              exact ⟨hmem, hpe ▸ hlt⟩
            · rw [if_neg hpe] at hcs'
              exact hinvc p cs' hcs' c hc
        obtain ⟨heq2, hinv3, hsub2⟩ :=
          filterSibs_spec tracking keep bnd recf recg hrec es
            (if (recg cs t).1 = [] then (recg cs t).2
             else treeUpdate (recg cs t).2 e.call_id (recg cs t).1) hinv2 hbes
        have hgeq : filterSibs keep recg (e :: es) t
            = (e :: (filterSibs keep recg es
                (if (recg cs t).1 = [] then (recg cs t).2
                 else treeUpdate (recg cs t).2 e.call_id (recg cs t).1)).1,
               (filterSibs keep recg es
                (if (recg cs t).1 = [] then (recg cs t).2
                 else treeUpdate (recg cs t).2 e.call_id (recg cs t).1)).2) := by
          rw [filterSibs_cons, if_pos hk, hlu]
        have hfeq : filterSibs keep recf (e :: es) t
            = (e :: (filterSibs keep recf es
                (if (recg cs t).1 = [] then (recg cs t).2
                 else treeUpdate (recg cs t).2 e.call_id (recg cs t).1)).1,
               (filterSibs keep recf es
                (if (recg cs t).1 = [] then (recg cs t).2
                 else treeUpdate (recg cs t).2 e.call_id (recg cs t).1)).2) := by
          rw [filterSibs_cons, if_pos hk, hlu]
          dsimp only
          rw [heqc]
        refine ⟨?_, ?_, ?_⟩
        · rw [hfeq, hgeq, heq2]
        · rw [hgeq]
          exact hinv3
        · rw [hgeq]
          intro r hr
          rcases List.mem_cons.mp hr with hr | hr
          · exact hr ▸ List.mem_cons_self _ _
          · exact List.mem_cons_of_mem _ (hsub2 r hr)
    · rcases hlu : treeLookup t e.call_id with _ | cs
      · obtain ⟨heq2, hinv3, hsub2⟩ :=
          filterSibs_spec tracking keep bnd recf recg hrec es t hinv hbes
        have hgeq : filterSibs keep recg (e :: es) t = filterSibs keep recg es t := by
          rw [filterSibs_cons, if_neg hk, hlu]
        have hfeq : filterSibs keep recf (e :: es) t = filterSibs keep recf es t := by
          rw [filterSibs_cons, if_neg hk, hlu]
        refine ⟨?_, ?_, ?_⟩
        · rw [hfeq, hgeq, heq2]
        · rw [hgeq]
          exact hinv3
        · rw [hgeq]
          exact fun r hr => List.mem_cons_of_mem _ (hsub2 r hr)
      · have hcs : ∀ c ∈ cs, restAbove tracking c < bnd := by
          intro c hc
          obtain ⟨hmem, hlt⟩ := hinv e.call_id cs hlu c hc
          exact Nat.lt_of_lt_of_le (restAbove_lt tracking c e hmem hlt)
            (Nat.lt_succ_iff.mp hbe)
        obtain ⟨heqc, hinvc, hsubc⟩ := hrec cs t hinv hcs
        by_cases hemp : (recg cs t).1 = []
        · obtain ⟨heq2, hinv3, hsub2⟩ :=
            filterSibs_spec tracking keep bnd recf recg hrec es ((recg cs t).2) hinvc hbes
          have hgeq : filterSibs keep recg (e :: es) t
              = filterSibs keep recg es ((recg cs t).2) := by
            rw [filterSibs_cons, if_neg hk, hlu]
            show (if (recg cs t).1 = [] then _ else _) = _
            rw [if_pos hemp]
          have hfeq : filterSibs keep recf (e :: es) t
              = filterSibs keep recf es ((recg cs t).2) := by
            rw [filterSibs_cons, if_neg hk, hlu]
            dsimp only
            rw [heqc]
            rw [if_pos hemp]
          refine ⟨?_, ?_, ?_⟩
          · rw [hfeq, hgeq, heq2]
          · rw [hgeq]
            exact hinv3
          · rw [hgeq]
            exact fun r hr => List.mem_cons_of_mem _ (hsub2 r hr)
        · have hinv2 : treeInv tracking
              (treeUpdate (recg cs t).2 e.call_id (recg cs t).1) := by
            intro p cs' hcs' c hc
            rw [treeLookup_update] at hcs'
            by_cases hpe : e.call_id = p
            · rw [if_pos hpe] at hcs'
              cases Option.some.inj hcs'
              obtain ⟨hmem, hlt⟩ := hinv e.call_id cs hlu c (hsubc c hc)
              exact ⟨hmem, hpe ▸ hlt⟩
            · rw [if_neg hpe] at hcs'
              exact hinvc p cs' hcs' c hc
          obtain ⟨heq2, hinv3, hsub2⟩ :=
            filterSibs_spec tracking keep bnd recf recg hrec es
              (treeUpdate (recg cs t).2 e.call_id (recg cs t).1) hinv2 hbes
          have hgeq : filterSibs keep recg (e :: es) t
              = (e :: (filterSibs keep recg es
                  (treeUpdate (recg cs t).2 e.call_id (recg cs t).1)).1,
                 (filterSibs keep recg es
                  (treeUpdate (recg cs t).2 e.call_id (recg cs t).1)).2) := by
            rw [filterSibs_cons, if_neg hk, hlu]
            show (if (recg cs t).1 = [] then _ else _) = _
            rw [if_neg hemp]
          have hfeq : filterSibs keep recf (e :: es) t
              = (e :: (filterSibs keep recf es
                  (treeUpdate (recg cs t).2 e.call_id (recg cs t).1)).1,
                 (filterSibs keep recf es
                  (treeUpdate (recg cs t).2 e.call_id (recg cs t).1)).2) := by
            rw [filterSibs_cons, if_neg hk, hlu]
            dsimp only
            rw [heqc]
            rw [if_neg hemp]
          refine ⟨?_, ?_, ?_⟩
          · rw [hfeq, hgeq, heq2]
          · rw [hgeq]
            exact hinv3
          · rw [hgeq]
            intro r hr
            rcases List.mem_cons.mp hr with hr | hr
            · exact hr ▸ List.mem_cons_self _ _
            · exact List.mem_cons_of_mem _ (hsub2 r hr)

theorem filterTree_stable (tracking : List Record) (keep : List Nat) :
    ∀ (f : Nat) (entries : List Record) (t : CTree), treeInv tracking t →
      (∀ e ∈ entries, restAbove tracking e < f) →
      filterTree keep f entries t = filterTree keep (f + 1) entries t ∧
      treeInv tracking ((filterTree keep (f + 1) entries t).2) ∧
      ∀ r ∈ (filterTree keep (f + 1) entries t).1, r ∈ entries
  | 0, entries, t, hinv, hb => by
    cases entries with
    | nil => exact ⟨rfl, hinv, by intro r hr; cases hr⟩
    | cons e es => exact absurd (hb e (List.mem_cons_self _ _)) (Nat.not_lt_zero _)
  | f + 1, entries, t, hinv, hb =>
    filterSibs_spec tracking keep f
      (fun cs u => filterTree keep f cs u) (fun cs u => filterTree keep (f + 1) cs u)
      (fun cs u hu hbc => filterTree_stable tracking keep f cs u hu hbc)
      entries t hinv hb

theorem filterSibs_nil_keep (rec_ : List Record → CTree → List Record × CTree)
    (hrec : ∀ cs t, (rec_ cs t).1 = []) :
    ∀ (entries : List Record) (t : CTree), (filterSibs [] rec_ entries t).1 = []
  | [], _ => rfl
  | e :: es, t => by
    rw [filterSibs_cons]
    rw [if_neg (by simp : ¬ (([] : List Nat).contains e.call_id = true))]
    rcases hlu : treeLookup t e.call_id with _ | cs
    · exact filterSibs_nil_keep rec_ hrec es t
    · dsimp only
      rw [if_pos (hrec cs t)]
      exact filterSibs_nil_keep rec_ hrec es ((rec_ cs t).2)

theorem filterTree_nil_keep :
    ∀ (f : Nat) (entries : List Record) (t : CTree), (filterTree [] f entries t).1 = []
  | 0, _, _ => rfl
  | f + 1, entries, t =>
    filterSibs_nil_keep (fun cs u => filterTree [] f cs u)
      (fun cs u => filterTree_nil_keep f cs u) entries t

theorem pyTake_zero (l : List α) : pyTake 0 l = [] := by
  simp [pyTake]

theorem flushPick_roots_nil (k : TopK) (tracking : List Record)
    (h : (buildCallTree tracking).1 = []) : (flushPick k tracking).1 = [] := by
  unfold flushPick
  cases k with
  | full =>
    dsimp only
    rw [h]
    rfl
  | noneK =>
    dsimp only
    rw [h]
    rfl
  | num n =>
    dsimp only
    rw [h]
    show (filterTree _ _ (sortRootsById []) _).1 = []
    show (filterTree _ (tracking.length + 1) [] _).1 = []
    rfl

theorem flushLines_of_nil_roots (k : TopK) (tracking : List Record)
    (h : (flushPick k tracking).1 = []) : flushLines k tracking = [] := by
  unfold flushLines
  dsimp only
  rw [if_pos h]

theorem logTop_log_of_nil_roots (k : TopK) (st : Ctx)
    (h : (flushPick k st.tracking).1 = []) : (logTopFunctions k st).log = st.log := by
  unfold logTopFunctions
  split
  · rfl
  · show st.log ++ flushLines k st.tracking = st.log
    rw [flushLines_of_nil_roots k st.tracking h, List.append_nil]

theorem flushPick_num_zero (tracking : List Record) :
    (flushPick (TopK.num 0) tracking).1 = [] := by
  unfold flushPick
  dsimp only
  rw [pyTake_zero, List.map_nil]
  exact filterTree_nil_keep _ _ _

/-! The claims. -/

/-- C6: on every exit path of the wrapper — normal return or raised error
(cancellation/abort is delivered as an exception, the modelled `raises`
flag) — the frame pushed at entry has been popped by the time the wrapper
finishes: the context's call stack after `runCall` equals the call stack
before entry, for every starting state and every dynamic call, so no
stale frames leak into subsequent attribution. -/
theorem C6_stack_restored (cfg : Config) (st : Ctx) (c : Call) :
    ((runCall cfg st c).1).call_stack = st.call_stack :=
  runCall_stack_eq cfg st c

/-- C1 counterexample: an outermost call (empty stack at entry) that
completes normally with duration 0.01 < minimum_duration 0.05, with a
recorded nested child: after it returns, the tracking list still holds the
child's record and nothing was written to the sink — the flush did not
run and the state was not cleared, contradicting the claim's
"regardless of whether that outermost call's own duration meets
minimum_duration". -/
theorem C1_counterexample :
    ((runCall ⟨5/100, TopK.full⟩ ctx0
      (Call.mk "outer" (1/100) FKind.sync false
        [Call.mk "inner" (6/100) FKind.sync false []])).1).tracking =
      [⟨"inner", 6/100, FKind.sync, 1, some 1, 2⟩] ∧
    ((runCall ⟨5/100, TopK.full⟩ ctx0
      (Call.mk "outer" (1/100) FKind.sync false
        [Call.mk "inner" (6/100) FKind.sync false []])).1).log = [] := by
  with_unfolding_all decide

/-- C1 (amended): when the outermost instrumented call (stack empty at
entry) completes without raising and its own duration meets
minimum_duration, the flush pipeline runs synchronously on the pre-flush
state (whose tracking list is nonempty) before control returns, and the
context's tracking list and call stack are cleared afterwards; when the
outermost duration is below the threshold, no flush runs and the tracking
list persists (see the counterexample). -/
theorem C1_flush_amended (cfg : Config) (st : Ctx) (c : Call)
    (hst : st.call_stack = []) (hcalm : calm c = true)
    (hdur : cfg.minimum_duration ≤ c.duration) :
    ∃ pre, runCall cfg st c = (logTopFunctions cfg.top_k pre, false) ∧
      pre.tracking ≠ [] ∧ pre.call_stack = [] ∧
      ((runCall cfg st c).1).tracking = [] ∧
      ((runCall cfg st c).1).call_stack = [] := by
  obtain ⟨pre, new, heq, htr, hstk, _⟩ := runCall_record_nil cfg st c hst hcalm hdur
  have htrne : pre.tracking ≠ [] := by
    rw [htr]
    simp
  refine ⟨pre, heq, htrne, hstk, ?_, ?_⟩
  · rw [heq]
    exact logTop_tracking _ _
  · rw [heq]
    exact logTop_stack_of_ne _ _ htrne

/-- C1 witness: the amended claim applied to the outer/inner scenario
with minimum_duration 0.05 and an outermost duration of 0.1. -/
theorem C1_flush_amended_witness :
    ∃ pre, runCall ⟨5/100, TopK.full⟩ ctx0
        (Call.mk "outer" (1/10) FKind.sync false
          [Call.mk "inner" (6/100) FKind.sync false []])
      = (logTopFunctions TopK.full pre, false) ∧
      pre.tracking ≠ [] ∧ pre.call_stack = [] ∧
      ((runCall ⟨5/100, TopK.full⟩ ctx0
        (Call.mk "outer" (1/10) FKind.sync false
          [Call.mk "inner" (6/100) FKind.sync false []])).1).tracking = [] ∧
      ((runCall ⟨5/100, TopK.full⟩ ctx0
        (Call.mk "outer" (1/10) FKind.sync false
          [Call.mk "inner" (6/100) FKind.sync false []])).1).call_stack = [] :=
  C1_flush_amended ⟨5/100, TopK.full⟩ ctx0
    (Call.mk "outer" (1/10) FKind.sync false
      [Call.mk "inner" (6/100) FKind.sync false []])
    rfl (by decide) (by with_unfolding_all decide)

/-- C2 counterexample: a raising call with duration 1 ≥ minimum_duration
0.05: the wrapper rethrows (flag true) but appends no record at all — the
tracking list stays empty — contradicting the claim that the record is
still appended when the callable raises. -/
theorem C2_counterexample :
    runCall ⟨5/100, TopK.full⟩ ctx0 (Call.mk "f" 1 FKind.sync true []) =
      (⟨[], [], 1, []⟩, true) := by
  with_unfolding_all decide

/-- C2 (amended): if the wrapped callable raises, the wrapper still pops
the frame (stack restored) and rethrows the error, but no duration is
computed and no record is appended for the raising call itself: every
record added during the call has a call id strictly greater than the
raising frame's id (st.counter + 1) — they are records of completed
nested children — and no flush is triggered. -/
theorem C2_raise_amended (cfg : Config) (st : Ctx) (c : Call)
    (hr : c.raisesOf = true) :
    (runCall cfg st c).2 = true ∧
    ((runCall cfg st c).1).call_stack = st.call_stack ∧
    ((runCall cfg st c).1).log = st.log ∧
    ∃ new, ((runCall cfg st c).1).tracking = st.tracking ++ new ∧
      ∀ r ∈ new, st.counter + 1 < r.call_id :=
  runCall_raises cfg st c hr

/-- C2 witness: the amended claim applied to a raising call with one
completed, recorded nested child. -/
theorem C2_raise_amended_witness :
    (runCall ⟨5/100, TopK.full⟩ ctx0 (Call.mk "f" 1 FKind.sync true
        [Call.mk "g" 2 FKind.sync false []])).2 = true ∧
    ((runCall ⟨5/100, TopK.full⟩ ctx0 (Call.mk "f" 1 FKind.sync true
        [Call.mk "g" 2 FKind.sync false []])).1).call_stack = ctx0.call_stack ∧
    ((runCall ⟨5/100, TopK.full⟩ ctx0 (Call.mk "f" 1 FKind.sync true
        [Call.mk "g" 2 FKind.sync false []])).1).log = ctx0.log ∧
    ∃ new, ((runCall ⟨5/100, TopK.full⟩ ctx0 (Call.mk "f" 1 FKind.sync true
        [Call.mk "g" 2 FKind.sync false []])).1).tracking = ctx0.tracking ++ new ∧
      ∀ r ∈ new, ctx0.counter + 1 < r.call_id :=
  C2_raise_amended ⟨5/100, TopK.full⟩ ctx0
    (Call.mk "f" 1 FKind.sync true [Call.mk "g" 2 FKind.sync false []]) rfl

/-- C3 (code behavior at the failing input): with top_k = 1 and a call
"a" (10s) whose only child "b" (1s) is neither in the top-1 set nor has
any surviving descendant, the rendered output still contains b's line:
filter_tree keeps node "a" but, because the filtered children list is
empty, never rewrites the children dict, so the renderer walks the stale
entry and prints "b". This contradicts the claimed connectivity property
of the filter. -/
theorem C3_filter_code_behavior :
    ((runCall ⟨5/100, TopK.num 1⟩ ctx0
      (Call.mk "a" 10 FKind.sync false [Call.mk "b" 1 FKind.sync false []])).1).log =
    ["a (sync) took 10.0000 seconds",
     "    └── b (sync) took 1.0000 seconds", "------"] := by
  with_unfolding_all decide

/-- C4 counterexample: the spec's own orphan scenario — a slow root "r"
(10s) calling a fast middle "m" (0.01s, below threshold and unrecorded)
calling a slow grandchild "g" (1s). "g"'s record has parent_id 2, which
matches no recorded call_id, yet the flushed output contains only "r"'s
line and the separator: the orphaned record is not treated as a root and
does not appear in the rendered output, contradicting the claim. -/
theorem C4_counterexample :
    ((runCall ⟨5/100, TopK.full⟩ ctx0
      (Call.mk "r" 10 FKind.sync false
        [Call.mk "m" (1/100) FKind.sync false
          [Call.mk "g" 1 FKind.sync false []]])).1).log =
      ["r (sync) took 10.0000 seconds", "------"] ∧
    (buildCallTree [⟨"g", 1, FKind.sync, 2, some 2, 3⟩,
        ⟨"r", 10, FKind.sync, 0, none, 1⟩]).1
      = [⟨"r", 10, FKind.sync, 0, none, 1⟩] := by
  with_unfolding_all decide

/-- C4 (amended): a record whose parent_id is not None is never a root —
the builder's root list is exactly the records with parent_id None, in
tracking order — and a record with parent_id p is stored in the children
dict under key p whether or not p matches any record, so an orphaned
record is unreachable from the roots and is silently dropped; in
particular, when no record has parent_id None the flush renders nothing
at all. -/
theorem C4_orphan_amended :
    (∀ tracking : List Record,
      (buildCallTree tracking).1 = tracking.filter (fun r => r.parent_id.isNone)) ∧
    (∀ (tracking : List Record) (p : Nat) (r : Record),
      memTree (buildCallTree tracking).2 p r ↔ r ∈ tracking ∧ r.parent_id = some p) ∧
    ∀ (k : TopK) (st : Ctx), (∀ r ∈ st.tracking, r.parent_id ≠ none) →
      (logTopFunctions k st).log = st.log := by
  refine ⟨buildCallTree_roots, buildCallTree_mem, ?_⟩
  intro k st h
  refine logTop_log_of_nil_roots k st (flushPick_roots_nil k st.tracking ?_)
  rw [buildCallTree_roots]
  rw [List.filter_eq_nil_iff]
  intro r hr
  simp only [Option.isNone_iff_eq_none]
  exact fun hnone => h r hr hnone

/-- C4 witness: the amended claim applied to a tracking list holding only
the orphaned record of the counterexample scenario. -/
theorem C4_orphan_amended_witness :
    (buildCallTree [⟨"g", 1, FKind.sync, 2, some 2, 3⟩]).1
        = List.filter (fun r => r.parent_id.isNone)
            [⟨"g", 1, FKind.sync, 2, some 2, 3⟩] ∧
    (logTopFunctions TopK.full
        ⟨[⟨"g", 1, FKind.sync, 2, some 2, 3⟩], [], 3, []⟩).log
      = (⟨[⟨"g", 1, FKind.sync, 2, some 2, 3⟩], [], 3, []⟩ : Ctx).log :=
  ⟨C4_orphan_amended.1 _,
   C4_orphan_amended.2.2 TopK.full _ (by with_unfolding_all decide)⟩

/-- C5: parent/depth attribution and tree rebuild. (i) A calm
instrumented call entered with a nonempty stack appends, last, a record
whose parent_id is the id of the frame on top of the stack at entry and
whose depth is the stack length at entry; (ii) entered with an empty
stack, it appends a record with parent_id None and depth 0 and hands the
pre-flush state to the flush pipeline; (iii) the rebuilt children dict
has an edge p → r exactly when r is a tracked record with
parent_id = some p — so the rebuilt tree's edges match the dynamic call
nesting restricted to calls meeting the duration threshold. -/
theorem C5_parent_linkage :
    (∀ (cfg : Config) (st : Ctx) (c : Call) (nm0 : String) (i0 : Nat)
        (rest : List (String × Nat)),
      st.call_stack = (nm0, i0) :: rest → calm c = true →
      cfg.minimum_duration ≤ c.duration →
      (runCall cfg st c).2 = false ∧
      ∃ new, ((runCall cfg st c).1).tracking = st.tracking ++ new ++
        [⟨c.name, c.duration, c.kindOf, st.call_stack.length, some i0,
          st.counter + 1⟩]) ∧
    (∀ (cfg : Config) (st : Ctx) (c : Call),
      st.call_stack = [] → calm c = true → cfg.minimum_duration ≤ c.duration →
      ∃ pre new, runCall cfg st c = (logTopFunctions cfg.top_k pre, false) ∧
        pre.tracking = st.tracking ++ new ++
          [⟨c.name, c.duration, c.kindOf, 0, none, st.counter + 1⟩] ∧
        pre.call_stack = [] ∧ pre.log = st.log) ∧
    ∀ (tracking : List Record) (p : Nat) (r : Record),
      memTree (buildCallTree tracking).2 p r ↔ r ∈ tracking ∧ r.parent_id = some p :=
  ⟨runCall_record_cons, runCall_record_nil, buildCallTree_mem⟩

/-- C5 witness: part (i) applied to an inner call under one stacked frame
("r", id 1) with counter 1, and part (ii) applied to an outermost call
from the fresh context. -/
theorem C5_parent_linkage_witness :
    ((runCall ⟨5/100, TopK.full⟩ ⟨[], [("r", 1)], 1, []⟩
        (Call.mk "inner" (6/100) FKind.sync false [])).2 = false ∧
      ∃ new, ((runCall ⟨5/100, TopK.full⟩ ⟨[], [("r", 1)], 1, []⟩
          (Call.mk "inner" (6/100) FKind.sync false [])).1).tracking =
        [] ++ new ++ [⟨"inner", 6/100, FKind.sync, 1, some 1, 2⟩]) ∧
    ∃ pre new, runCall ⟨5/100, TopK.full⟩ ctx0
        (Call.mk "outer" (1/10) FKind.sync false []) =
        (logTopFunctions TopK.full pre, false) ∧
      pre.tracking = [] ++ new ++ [⟨"outer", 1/10, FKind.sync, 0, none, 1⟩] ∧
      pre.call_stack = [] ∧ pre.log = [] :=
  ⟨C5_parent_linkage.1 ⟨5/100, TopK.full⟩ ⟨[], [("r", 1)], 1, []⟩
      (Call.mk "inner" (6/100) FKind.sync false []) "r" 1 [] rfl (by decide)
      (by with_unfolding_all decide),
   C5_parent_linkage.2.1 ⟨5/100, TopK.full⟩ ctx0
      (Call.mk "outer" (1/10) FKind.sync false []) rfl (by decide)
      (by with_unfolding_all decide)⟩

/-- C7 counterexample: with top_k = -1 ≤ 0 and a call "a" (10s) with
children "b" (5s) and "c" (1s), the Python slice all_nodes[:-1] keeps the
two largest nodes, so the kept set is nonempty and the flush renders
output — contradicting the claim that every top_k ≤ 0 yields an empty
kept set and nothing rendered. -/
theorem C7_counterexample :
    ((runCall ⟨5/100, TopK.num (-1)⟩ ctx0
      (Call.mk "a" 10 FKind.sync false
        [Call.mk "b" 5 FKind.sync false [], Call.mk "c" 1 FKind.sync false []])).1).log =
    ["a (sync) took 10.0000 seconds",
     "    └── b (sync) took 5.0000 seconds", "------"] := by
  with_unfolding_all decide

/-- C7 (amended): for top_k = 0 the slice is empty, so the kept set is
empty, no node survives filtering, nothing is rendered (the log is
unchanged) and the tracking list is left empty; for strictly negative
top_k, Python slicing instead keeps all but the last |top_k|
lowest-duration nodes (see the counterexample). -/
theorem C7_topk_amended (st : Ctx) :
    (∀ l : List Record, pyTake 0 l = []) ∧
    (flushPick (TopK.num 0) st.tracking).1 = [] ∧
    (logTopFunctions (TopK.num 0) st).log = st.log ∧
    (logTopFunctions (TopK.num 0) st).tracking = [] :=
  ⟨fun l => pyTake_zero l,
   flushPick_num_zero st.tracking,
   logTop_log_of_nil_roots _ st (flushPick_num_zero st.tracking),
   logTop_tracking _ st⟩

/-- C8: after tree building and before filtering, the ordering is by
ascending call_id: the root-list sort of line 77 always produces a list
sorted by relId, and every children list stored in the built tree is
sorted by relId (call order, not duration). -/
theorem C8_sorted_order :
    (∀ l : List Record, List.Sorted relId (sortRootsById l)) ∧
    ∀ (tracking : List Record) (p : Nat) (cs : List Record),
      treeLookup (buildCallTree tracking).2 p = some cs → List.Sorted relId cs := by
  refine ⟨fun l => List.sorted_insertionSort relId l, ?_⟩
  intro tracking p cs hcs
  have hcs' : treeLookup (sortChildren (buildAux tracking ([], [])).2) p = some cs := hcs
  rw [treeLookup_sortChildren] at hcs'
  rcases Option.map_eq_some'.mp hcs' with ⟨l, _, heq⟩
  rw [← heq]
  exact List.sorted_insertionSort relId l

/-- C8 witness: the children list under key 1 of the tree built from a
single child record is sorted by relId. -/
theorem C8_sorted_order_witness :
    treeLookup (buildCallTree [⟨"b", 1, FKind.sync, 1, some 1, 2⟩]).2 1
      = some [⟨"b", 1, FKind.sync, 1, some 1, 2⟩] ∧
    List.Sorted relId [⟨"b", 1, FKind.sync, 1, some 1, 2⟩] :=
  ⟨by with_unfolding_all decide,
   C8_sorted_order.2 [⟨"b", 1, FKind.sync, 1, some 1, 2⟩] 1 _
     (by with_unfolding_all decide)⟩

/-- C9: each rendered node's first line has exactly the specified form
(indent of four spaces per rendered level, connector prefix, name, kind
tag, duration to four decimal places); the corner connector marks the
last child and the tee connector the others (two-children scenario); the
outer (0.10s) / inner (0.06s) / leaf (0.01s) scenario at
minimum_duration 0.05 renders exactly the two specified lines; and every
non-empty flush is terminated by the "------" separator. -/
theorem C9_render_format :
    (∀ (tree : CTree) (f : Nat) (e : Record) (ind : Nat) (pre : String),
      (formatTreeNode tree (f + 1) e ind pre).head? =
        some (indentStr ind ++ pre ++ e.name ++ " (" ++ FKind.str e.kind
          ++ ") took " ++ format4 e.duration ++ " seconds")) ∧
    ((runCall ⟨5/100, TopK.full⟩ ctx0
        (Call.mk "outer" (1/10) FKind.sync false
          [Call.mk "inner" (6/100) FKind.sync false
            [Call.mk "leaf" (1/100) FKind.sync false []]])).1).log =
      ["outer (sync) took 0.1000 seconds",
       "    └── inner (sync) took 0.0600 seconds", "------"] ∧
    ((runCall ⟨5/100, TopK.full⟩ ctx0
        (Call.mk "a" 10 FKind.sync false
          [Call.mk "x" 5 FKind.sync false [],
           Call.mk "y" 1 FKind.sync false []])).1).log =
      ["a (sync) took 10.0000 seconds",
       "    ├── x (sync) took 5.0000 seconds",
       "    └── y (sync) took 1.0000 seconds", "------"] := by
  refine ⟨?_, ?_, ?_⟩
  · intro tree f e ind pre
    rfl
  · with_unfolding_all decide
  · with_unfolding_all decide

/-- C10: (1) the wrapper preserves context well-formedness — in
particular, every record in any tracking list it produces has
parent_id < call_id, ids being allocated from the per-context strictly
increasing counter starting at 1; (2)-(4) consequently the children
mapping is acyclic along ascending ids and the three recursive traversals
terminate: on any tree satisfying the invariant treeOk, formatTreeNode,
collectNodes and filterTree are unchanged by extra fuel once the fuel
exceeds the number of tracked records with larger ids, so the
tracking.length + 1 fuel used by the flush pipeline suffices. -/
theorem C10_id_order_termination :
    (∀ (cfg : Config) (st : Ctx) (c : Call), ctxOk st = true →
      ctxOk ((runCall cfg st c).1) = true ∧
      ∀ r ∈ ((runCall cfg st c).1).tracking,
        ∀ p, r.parent_id = some p → p < r.call_id) ∧
    (∀ (tracking : List Record) (t : CTree), treeOk tracking t = true →
      ∀ (f : Nat) (e : Record) (ind : Nat) (pre : String),
        restAbove tracking e < f →
        formatTreeNode t f e ind pre = formatTreeNode t (f + 1) e ind pre) ∧
    (∀ (tracking : List Record) (t : CTree), treeOk tracking t = true →
      ∀ (f : Nat) (entries : List Record),
        (∀ e ∈ entries, restAbove tracking e < f) →
        collectNodes t f entries = collectNodes t (f + 1) entries) ∧
    ∀ (tracking : List Record) (t : CTree) (keep : List Nat),
      treeOk tracking t = true →
      ∀ (f : Nat) (entries : List Record),
        (∀ e ∈ entries, restAbove tracking e < f) →
        filterTree keep f entries t = filterTree keep (f + 1) entries t := by
  refine ⟨?_, ?_, ?_, ?_⟩
  · intro cfg st c h
    have hok := runCallF_ctxOk cfg (csize c) st c h
    refine ⟨hok, ?_⟩
    intro r hr p hp
    exact (((ctxOk_iff _).mp hok).2 r hr).1 p hp
  · intro tracking t ht f e ind pre hb
    exact formatTreeNode_stable tracking t (treeOk_spec tracking t ht) f e ind pre hb
  · intro tracking t ht f entries hb
    exact collectNodes_stable tracking t (treeOk_spec tracking t ht) f entries hb
  · intro tracking t keep ht f entries hb
    exact (filterTree_stable tracking keep f entries t (treeOk_spec tracking t ht) hb).1

/-- C10 witness: the conjuncts applied to the concrete two-record
tracking list [a, b] (b a child of a), its children dict [(1, [b])], and
fuel 3. -/
theorem C10_id_order_termination_witness :
    (ctxOk ((runCall ⟨5/100, TopK.full⟩ ctx0
        (Call.mk "a" 10 FKind.sync false
          [Call.mk "b" 1 FKind.sync false []])).1) = true ∧
      ∀ r ∈ ((runCall ⟨5/100, TopK.full⟩ ctx0
          (Call.mk "a" 10 FKind.sync false
            [Call.mk "b" 1 FKind.sync false []])).1).tracking,
        ∀ p, r.parent_id = some p → p < r.call_id) ∧
    formatTreeNode [(1, [⟨"b", 1, FKind.sync, 1, some 1, 2⟩])] 3
        ⟨"a", 10, FKind.sync, 0, none, 1⟩ 0 ""
      = formatTreeNode [(1, [⟨"b", 1, FKind.sync, 1, some 1, 2⟩])] 4
        ⟨"a", 10, FKind.sync, 0, none, 1⟩ 0 "" ∧
    collectNodes [(1, [⟨"b", 1, FKind.sync, 1, some 1, 2⟩])] 3
        [⟨"a", 10, FKind.sync, 0, none, 1⟩]
      = collectNodes [(1, [⟨"b", 1, FKind.sync, 1, some 1, 2⟩])] 4
        [⟨"a", 10, FKind.sync, 0, none, 1⟩] ∧
    filterTree [1] 3 [⟨"a", 10, FKind.sync, 0, none, 1⟩]
        [(1, [⟨"b", 1, FKind.sync, 1, some 1, 2⟩])]
      = filterTree [1] 4 [⟨"a", 10, FKind.sync, 0, none, 1⟩]
        [(1, [⟨"b", 1, FKind.sync, 1, some 1, 2⟩])] :=
  ⟨C10_id_order_termination.1 ⟨5/100, TopK.full⟩ ctx0
      (Call.mk "a" 10 FKind.sync false [Call.mk "b" 1 FKind.sync false []])
      (by decide),
   C10_id_order_termination.2.1
      [⟨"a", 10, FKind.sync, 0, none, 1⟩, ⟨"b", 1, FKind.sync, 1, some 1, 2⟩]
      [(1, [⟨"b", 1, FKind.sync, 1, some 1, 2⟩])] (by with_unfolding_all decide)
      3 ⟨"a", 10, FKind.sync, 0, none, 1⟩ 0 "" (by with_unfolding_all decide),
   C10_id_order_termination.2.2.1
      [⟨"a", 10, FKind.sync, 0, none, 1⟩, ⟨"b", 1, FKind.sync, 1, some 1, 2⟩]
      [(1, [⟨"b", 1, FKind.sync, 1, some 1, 2⟩])] (by with_unfolding_all decide)
      3 [⟨"a", 10, FKind.sync, 0, none, 1⟩] (by with_unfolding_all decide),
   C10_id_order_termination.2.2.2
      [⟨"a", 10, FKind.sync, 0, none, 1⟩, ⟨"b", 1, FKind.sync, 1, some 1, 2⟩]
      [(1, [⟨"b", 1, FKind.sync, 1, some 1, 2⟩])] [1] (by with_unfolding_all decide)
      3 [⟨"a", 10, FKind.sync, 0, none, 1⟩] (by with_unfolding_all decide)⟩
